import Mathlib

/-!
# MigMate Sample-Project: HTTP client model

Shallow embedding of `src/Sample-Project/project.py` and of the minimal
HTTP client / session abstraction that the script relies on. The script
itself only calls the client's high-level surface (`requests.get`,
`session.post`, `resp.json`, `resp.ok`, the `with`-scoped session); the
client internals are not part of the repository's sources, so they are
modelled from the specification document where needed (each such
definition says so in its doc comment).

Strings that travel on the wire (URL query strings, JSON bodies) are
modelled as byte lists (`List Nat`, each byte `< 256` where it matters),
so that percent-encoding and JSON serialization act on the actual
transmitted octets.
-/

namespace MigMate

/-- Bytes: the wire-level representation of a piece of text. -/
abbrev Bytes := List Nat

/-! ## Data model: Response -/

/-- Modelled from the spec: a Response carries an integer status code, a
header mapping and the raw body bytes. It is only ever built by `rawSend`
from a complete wire exchange. -/
structure Response where
  status : Int
  headers : List (String × String)
  body : Bytes
deriving Repr, DecidableEq

/-- Modelled from the spec: the derived boolean `ok` is
"status code in [200,400)". -/
def Response.ok (r : Response) : Bool :=
  (200 ≤ r.status) && (r.status < 400)

/-! ## Data model: Request -/

/-- HTTP method, as in the spec's data model. -/
inductive Method
  | get | post | put | delete
deriving Repr, DecidableEq

/-- A query-parameter value as the script may supply it: a string, an
integer (the script passes `5` for `"limit"`), or a list of strings. -/
inductive PVal
  | str (s : Bytes)
  | int (n : Int)
  | strList (vs : List Bytes)
deriving Repr, DecidableEq

mutual

/-- Modelled from the spec: a JSON value. Objects keep their fields in
insertion order. Strings are byte lists (UTF-8 octets). Numbers are
integers, which covers every structured value the script sends. -/
inductive JVal
  | null
  | bool (b : Bool)
  | num (n : Int)
  | str (s : Bytes)
  | arr (xs : JArr)
  | obj (fs : JObj)

/-- The elements of a JSON array, in order. -/
inductive JArr
  | nil
  | cons (x : JVal) (xs : JArr)

/-- The fields of a JSON object, in insertion order. -/
inductive JObj
  | nil
  | cons (k : Bytes) (v : JVal) (fs : JObj)

end

/-- A request body: raw bytes, or a structured value to be serialized as
JSON. -/
inductive ReqBody
  | raw (bs : Bytes)
  | json (j : JVal)

/-- Modelled from the spec: a Request is method, target URL, optional
query parameters, optional body, optional headers; immutable once
constructed (a plain value here). -/
structure Request where
  method : Method
  url : Bytes
  params : List (Bytes × PVal)
  body : Option ReqBody
  headers : List (String × String)

/-! ## Transport and send -/

/-- Modelled from the spec: the outcome of one wire-level exchange, as seen
by the client. Either a full response (status line + headers + body) was
received, or a terminal failure occurred: no transport could be
established, the deadline elapsed, the connection dropped before a full
status line arrived, or the response framing was malformed. -/
inductive Wire
  | complete (status : Int) (headers : List (String × String)) (body : Bytes)
  | noConnection
  | timedOut
  | droppedBeforeStatus
  | malformedFraming
deriving Repr, DecidableEq

/-- Modelled from the spec: the error taxonomy of section 7. -/
inductive HttpError
  | unsupportedScheme
  | connectionFailed
  | deadlineExceeded
  | badFraming
  | parseFailed
  | sessionClosed
deriving Repr, DecidableEq

/-- Modelled from the spec: `send` blocks until a full response or a
terminal failure; a Response is built only from a complete exchange, and
every transport failure surfaces as an error. -/
def rawSend (_req : Request) (w : Wire) : Except HttpError Response :=
  match w with
  | .complete st hs b => .ok ⟨st, hs, b⟩
  | .noConnection => .error .connectionFailed
  | .timedOut => .error .deadlineExceeded
  | .droppedBeforeStatus => .error .badFraming
  | .malformedFraming => .error .badFraming

/-- Modelled from the spec: one `send` call consumes exactly one attempt
from the stream of available transport outcomes and never retries; the
remaining outcomes are returned untouched. An exhausted stream stands for
a transport that cannot be reached at all. -/
def sendOnce (req : Request) : List Wire → Except HttpError Response × List Wire
  | [] => (.error .connectionFailed, [])
  | w :: ws => (rawSend req w, ws)

/-! ## Session -/

/-- Modelled from the spec: a Session holds a reusable connection pool and
a cookie store; its only lifecycle state beyond those is open vs closed. -/
structure Session where
  closed : Bool
  pool : List Nat
  cookies : List (String × String)
deriving Repr, DecidableEq

/-- Modelled from the spec: `open()` allocates an empty pooled-connection
set and empty cookie store. -/
def Session.openSession : Session :=
  { closed := false, pool := [], cookies := [] }

/-- Modelled from the spec: `close()` releases all pooled connections and
marks the session closed (terminal state). -/
def Session.close (s : Session) : Session :=
  { s with closed := true, pool := [] }

/-- Modelled from the spec: `Session.send` has the same contract as
`rawSend` but fails with `SessionClosedError` once the session is
closed. -/
def Session.send (s : Session) (req : Request) (w : Wire) :
    Except HttpError (Response × Session) :=
  if s.closed then .error .sessionClosed
  else (rawSend req w).map (fun r => (r, s))

/-- An operation performed on a session, for reasoning about lifecycle
traces. -/
inductive SessionOp
  | send (req : Request) (w : Wire)
  | close

/-- How many `close` invocations a trace of session operations contains. -/
def closeCount (ops : List SessionOp) : Nat :=
  ops.countP (fun op => match op with | .close => true | _ => false)

/-- Modelled from the spec (and from the script's `with` block): scoped
session usage opens a session, runs the body — which returns either a
normal result or a propagating failure, the session state it left behind,
and the trace of operations it performed — and then closes the session on
that exit path, whichever it is, exactly as Python's context-manager
`__exit__` does. -/
def withOpenSession {ε α : Type} (body : Session → Except ε α × Session × List SessionOp) :
    Except ε α × Session × List SessionOp :=
  let r := body Session.openSession
  (r.1, (r.2.1).close, r.2.2 ++ [SessionOp.close])

/-! ## The script's POST branch -/

/-- One result line printed by the script for the POST response: either
"Submitted!" together with the body text, or "Error:" together with the
status code. -/
inductive ScriptLine
  | submitted (text : Bytes)
  | errorLine (status : Int)
deriving Repr, DecidableEq

/-- The script's branch on `post_resp.ok` (project.py lines 20-23):
`if post_resp.ok: print("Submitted!", post_resp.text)
else: print("Error:", post_resp.status_code)`. -/
def postReport (r : Response) : List ScriptLine :=
  if r.ok then [.submitted r.body] else [.errorLine r.status]

/-- ASCII text as wire bytes. -/
def strBytes (s : String) : Bytes :=
  s.toList.map Char.toNat

/-- The script's first GET request (project.py line 4). -/
def simpleGetRequest : Request :=
  { method := .get
    url := strBytes "https://www.google.com"
    params := []
    body := none
    headers := [] }

/-! ## Query-string encoding -/

/-- Unreserved URI bytes (RFC 3986): letters, digits, `-` `.` `_` `~`.
Everything else is percent-escaped. -/
def isUnreservedByte (b : Nat) : Bool :=
  (65 ≤ b && b ≤ 90) || (97 ≤ b && b ≤ 122) || (48 ≤ b && b ≤ 57) ||
    b == 45 || b == 46 || b == 95 || b == 126

/-- Upper-case hexadecimal digit for a nibble. -/
def hexDigitByte (n : Nat) : Nat :=
  if n < 10 then 48 + n else 55 + n

/-- Value of a hexadecimal digit byte, when it is one. -/
def hexValByte (b : Nat) : Option Nat :=
  if 48 ≤ b ∧ b ≤ 57 then some (b - 48)
  else if 65 ≤ b ∧ b ≤ 70 then some (b - 55)
  else none

/-- Modelled from the spec: percent-encoding of one byte — unreserved
bytes pass through, every other byte becomes `%XX`. -/
def pctEncodeByte (b : Nat) : Bytes :=
  if isUnreservedByte b then [b]
  else [37, hexDigitByte (b / 16), hexDigitByte (b % 16)]

/-- Percent-encoding of a byte string. -/
def pctEncode (bs : Bytes) : Bytes :=
  bs.flatMap pctEncodeByte

/-- Percent-decoding: `%XX` escapes are folded back into single bytes;
a dangling or malformed escape fails. -/
def pctDecode : Bytes → Option Bytes
  | [] => some []
  | b :: rest =>
    if b = 37 then
      match rest with
      | h1 :: h2 :: rest' =>
        match hexValByte h1, hexValByte h2 with
        | some x, some y => (pctDecode rest').map (fun ds => (16 * x + y) :: ds)
        | _, _ => none
      | _ => none
    else (pctDecode rest).map (fun ds => b :: ds)

/-- One `key=value` piece of a query string. -/
def encodePair (kv : Bytes × Bytes) : Bytes :=
  pctEncode kv.1 ++ 61 :: pctEncode kv.2

/-- Modelled from the spec: the constructed query string — the
percent-encoded `key=value` pieces joined with `&`. -/
def encodeQuery (pairs : List (Bytes × Bytes)) : Bytes :=
  List.intercalate [38] (pairs.map encodePair)

/-- Parse one `key=value` piece: split at the first `=`, percent-decode
both sides. -/
def parseQueryPair (piece : Bytes) : Option (Bytes × Bytes) :=
  match piece.dropWhile (fun b => b != 61) with
  | 61 :: v => do
      let kd ← pctDecode (piece.takeWhile (fun b => b != 61))
      let vd ← pctDecode v
      some (kd, vd)
  | _ => none

/-- Parse every piece of a split query string. -/
def parsePieces : List Bytes → Option (List (Bytes × Bytes))
  | [] => some []
  | p :: ps => do
      let kv ← parseQueryPair p
      let rest ← parsePieces ps
      some (kv :: rest)

/-- Parse a query string back into its key/value pairs: split on `&`,
then parse each `key=value` piece. -/
def decodeQuery (bs : Bytes) : Option (List (Bytes × Bytes)) :=
  if bs = [] then some [] else parsePieces (bs.splitOn 38)

/-- Decimal digit bytes of a natural number, with enough fuel to consume
one digit per step. -/
def natDigitsAux : Nat → Nat → Bytes
  | 0, _ => []
  | fuel + 1, n =>
    if n < 10 then [48 + n] else natDigitsAux fuel (n / 10) ++ [48 + n % 10]

/-- Decimal digit bytes of a natural number. -/
def natDigits (n : Nat) : Bytes :=
  natDigitsAux (n + 1) n

/-- Decimal byte representation of an integer. -/
def intBytes (n : Int) : Bytes :=
  if n < 0 then 45 :: natDigits n.natAbs else natDigits n.natAbs

/-- How the client renders one parameter value into query-string values:
a string stays itself, an integer becomes its decimal representation, a
list contributes one value per element. -/
def pvalStrings : PVal → List Bytes
  | .str s => [s]
  | .int n => [intBytes n]
  | .strList vs => vs

/-- Modelled from the spec: the flat `key=value` pairs of a parameter
mapping, in insertion order — list-valued parameters are repeated as
multiple pairs. -/
def flattenParams (ps : List (Bytes × PVal)) : List (Bytes × Bytes) :=
  ps.flatMap (fun kv => (pvalStrings kv.2).map (fun v => (kv.1, v)))

/-- A query value as recovered by parsing: always a string. Used to state
the claim that parsing recovers the original values, which may have been
integers. -/
inductive QVal
  | s (v : Bytes)
  | i (n : Int)
deriving Repr, DecidableEq

/-- The pairs the round-trip claim expects back: each original value
itself (integers as integers), list values flattened in order. -/
def expectedPairs (ps : List (Bytes × PVal)) : List (Bytes × QVal) :=
  ps.flatMap (fun kv =>
    match kv.2 with
    | .str s => [(kv.1, QVal.s s)]
    | .int n => [(kv.1, QVal.i n)]
    | .strList vs => vs.map (fun v => (kv.1, QVal.s v)))

/-- The pairs a parse of the query string actually yields: strings. -/
def recoveredPairs (bs : Bytes) : Option (List (Bytes × QVal)) :=
  (decodeQuery bs).map (List.map (fun kv => (kv.1, QVal.s kv.2)))

/-- The claim "parsing the constructed query string recovers exactly the
original key/value pairs", stated for a parameter mapping. -/
def queryRoundTripExact (ps : List (Bytes × PVal)) : Prop :=
  recoveredPairs (encodeQuery (flattenParams ps)) = some (expectedPairs ps)

instance (ps : List (Bytes × PVal)) : Decidable (queryRoundTripExact ps) := by
  unfold queryRoundTripExact
  infer_instance

/-- The parameter mapping the script passes to its second GET
(project.py lines 8-11): `{"q": "test", "limit": 5}`. -/
def scriptGetParams : List (Bytes × PVal) :=
  [(strBytes "q", .str (strBytes "test")), (strBytes "limit", .int 5)]

/-- Every byte of every key and value is an actual octet. -/
def ValidPairs (pairs : List (Bytes × Bytes)) : Prop :=
  ∀ kv ∈ pairs, (∀ b ∈ kv.1, b < 256) ∧ ∀ b ∈ kv.2, b < 256

instance (pairs : List (Bytes × Bytes)) : Decidable (ValidPairs pairs) := by
  unfold ValidPairs
  infer_instance

/-! ## JSON serialization and parsing -/

/-- JSON string escaping of one byte: `"` and `\` get a backslash
escape, control bytes become `\u00XX`, everything else passes through. -/
def escByte (b : Nat) : Bytes :=
  if b = 34 then [92, 34]
  else if b = 92 then [92, 92]
  else if b < 32 then [92, 117, 48, 48, hexDigitByte (b / 16), hexDigitByte (b % 16)]
  else [b]

/-- JSON string escaping of a byte string. -/
def escStr (s : Bytes) : Bytes :=
  s.flatMap escByte

/-- A serialized JSON string: quoted and escaped. -/
def serStr (s : Bytes) : Bytes :=
  34 :: escStr s ++ [34]

mutual

/-- Modelled from the spec: standard JSON serialization of a structured
body — object fields stay in insertion order. -/
def serJVal : JVal → Bytes
  | .null => [110, 117, 108, 108]
  | .bool true => [116, 114, 117, 101]
  | .bool false => [102, 97, 108, 115, 101]
  | .num n => intBytes n
  | .str s => serStr s
  | .arr xs => 91 :: serElemsAll xs ++ [93]
  | .obj fs => 123 :: serFieldsAll fs ++ [125]

/-- The serialized elements of an array, comma-separated. -/
def serElemsAll : JArr → Bytes
  | .nil => []
  | .cons x xs => serJVal x ++ serElemsRest xs

/-- The remaining elements of an array, each preceded by a comma. -/
def serElemsRest : JArr → Bytes
  | .nil => []
  | .cons x xs => 44 :: (serJVal x ++ serElemsRest xs)

/-- The serialized fields of an object, comma-separated. -/
def serFieldsAll : JObj → Bytes
  | .nil => []
  | .cons k v fs => serStr k ++ 58 :: serJVal v ++ serFieldsRest fs

/-- The remaining fields of an object, each preceded by a comma. -/
def serFieldsRest : JObj → Bytes
  | .nil => []
  | .cons k v fs => 44 :: (serStr k ++ 58 :: serJVal v ++ serFieldsRest fs)

end

/-- Greedy decimal-digit scan, accumulating the value. -/
def parseDigitsAux : Nat → Bytes → Nat × Bytes
  | acc, [] => (acc, [])
  | acc, c :: cs =>
    if 48 ≤ c ∧ c ≤ 57 then parseDigitsAux (acc * 10 + (c - 48)) cs
    else (acc, c :: cs)

/-- Parse a natural number: at least one leading digit, then a greedy
digit scan. -/
def parseNatNum : Bytes → Option (Nat × Bytes)
  | [] => none
  | c :: cs =>
    if 48 ≤ c ∧ c ≤ 57 then some (parseDigitsAux 0 (c :: cs)) else none

/-- Parse the remainder of a JSON string after the opening quote, up to
and including the closing quote, undoing the escapes. -/
def parseStrAux : Bytes → Option (Bytes × Bytes)
  | [] => none
  | b :: rest =>
    if b = 34 then some ([], rest)
    else if b = 92 then
      match rest with
      | 34 :: rest' => (parseStrAux rest').map (fun p => (34 :: p.1, p.2))
      | 92 :: rest' => (parseStrAux rest').map (fun p => (92 :: p.1, p.2))
      | 117 :: a :: b2 :: c :: d :: rest' =>
        match hexValByte a, hexValByte b2, hexValByte c, hexValByte d with
        | some ha, some hb, some hc, some hd =>
          (parseStrAux rest').map
            (fun p => ((((ha * 16 + hb) * 16 + hc) * 16 + hd) :: p.1, p.2))
        | _, _, _, _ => none
      | _ => none
    else (parseStrAux rest).map (fun p => (b :: p.1, p.2))

mutual

/-- Modelled from the spec: a recursive-descent JSON parser over the raw
body bytes, fuelled by one unit per nesting step. -/
def parseJVal : Nat → Bytes → Option (JVal × Bytes)
  | 0, _ => none
  | _ + 1, [] => none
  | fuel + 1, c :: input =>
    if c = 110 then
      match input with
      | 117 :: 108 :: 108 :: rest => some (.null, rest)
      | _ => none
    else if c = 116 then
      match input with
      | 114 :: 117 :: 101 :: rest => some (.bool true, rest)
      | _ => none
    else if c = 102 then
      match input with
      | 97 :: 108 :: 115 :: 101 :: rest => some (.bool false, rest)
      | _ => none
    else if c = 34 then
      match parseStrAux input with
      | some (s, rest) => some (.str s, rest)
      | none => none
    else if c = 91 then
      match parseElems fuel input with
      | some (xs, 93 :: rest) => some (.arr xs, rest)
      | _ => none
    else if c = 123 then
      match parseFields fuel input with
      | some (fs, 125 :: rest) => some (.obj fs, rest)
      | _ => none
    else if c = 45 then
      match parseNatNum input with
      | some (n, rest) => some (.num (-(n : Int)), rest)
      | none => none
    else if 48 ≤ c ∧ c ≤ 57 then
      match parseNatNum (c :: input) with
      | some (n, rest) => some (.num (n : Int), rest)
      | none => none
    else none

/-- Parse the elements of an array, stopping in front of the closing
bracket. -/
def parseElems : Nat → Bytes → Option (JArr × Bytes)
  | 0, _ => none
  | _ + 1, [] => none
  | fuel + 1, c :: input =>
    if c = 93 then some (.nil, c :: input)
    else
      match parseJVal fuel (c :: input) with
      | some (v, 44 :: rest) =>
        match parseElems fuel rest with
        | some (vs, rest') => some (.cons v vs, rest')
        | none => none
      | some (v, rest) => some (.cons v .nil, rest)
      | none => none

/-- Parse the fields of an object, stopping in front of the closing
brace. -/
def parseFields : Nat → Bytes → Option (JObj × Bytes)
  | 0, _ => none
  | _ + 1, [] => none
  | fuel + 1, c :: input =>
    if c = 125 then some (.nil, c :: input)
    else if c = 34 then
      match parseStrAux input with
      | some (k, 58 :: vrest) =>
        match parseJVal fuel vrest with
        | some (v, 44 :: rest) =>
          match parseFields fuel rest with
          | some (fs, rest') => some (.cons k v fs, rest')
          | none => none
        | some (v, rest) => some (.cons k v .nil, rest)
        | none => none
      | _ => none
    else none

end

/-- Modelled from the spec: decode a full body as one JSON value; any
leftover bytes or parse failure means the body is not valid JSON. -/
def parseJson (bs : Bytes) : Option JVal :=
  match parseJVal (bs.length + 1) bs with
  | some (v, []) => some v
  | _ => none

mutual

/-- Fuel sufficient for `parseJVal` on this value's serialization. -/
def jfuel : JVal → Nat
  | .null => 1
  | .bool _ => 1
  | .num _ => 1
  | .str _ => 1
  | .arr xs => 1 + gfuel xs
  | .obj fs => 1 + hfuel fs

/-- Fuel sufficient for `parseElems` on these elements' serialization. -/
def gfuel : JArr → Nat
  | .nil => 1
  | .cons x xs => 1 + max (jfuel x) (gfuel xs)

/-- Fuel sufficient for `parseFields` on these fields' serialization. -/
def hfuel : JObj → Nat
  | .nil => 1
  | .cons _ v fs => 1 + max (jfuel v) (hfuel fs)

end

/-- "The next byte, if any, is not a digit": the context in which a
serialized number always ends. -/
def nonDigitHead : Bytes → Prop
  | [] => True
  | c :: _ => c < 48 ∨ 57 < c

/-- The bytes actually transmitted as a request body: raw bytes as they
are, a structured body serialized as JSON. -/
def transmittedBody : ReqBody → Bytes
  | .raw bs => bs
  | .json j => serJVal j

/-- Modelled from the spec: the lazily decoded JSON value of a Response —
returns the decoded value, or ParseError when the body bytes are not
valid JSON. -/
def Response.jsonValue (r : Response) : Except HttpError JVal :=
  match parseJson r.body with
  | some v => .ok v
  | none => .error .parseFailed

/-- Whether a body is valid JSON: exactly when decoding succeeds. -/
def validJson (bs : Bytes) : Bool :=
  (parseJson bs).isSome

/-- The structured body of the script's POST (project.py line 18):
`{"key": "value"}`. -/
def scriptPostJson : JVal :=
  .obj (.cons (strBytes "key") (.str (strBytes "value")) .nil)

/-- The script's POST request (project.py lines 16-19). -/
def scriptPostRequest : Request :=
  { method := .post
    url := strBytes "https://api.example.com/submit"
    params := []
    body := some (.json scriptPostJson)
    headers := [] }

/-! ## Percent-encoding round-trip lemmas -/

theorem pctEncode_cons (b : Nat) (bs : Bytes) :
    pctEncode (b :: bs) = pctEncodeByte b ++ pctEncode bs := by
  simp [pctEncode]

theorem hexValByte_hexDigitByte (x : Nat) (hx : x < 16) :
    hexValByte (hexDigitByte x) = some x := by
  unfold hexValByte hexDigitByte
  by_cases h : x < 10
  · rw [if_pos h, if_pos (by omega)]
    simp only [Option.some.injEq]
    omega
  · rw [if_neg h, if_neg (by omega), if_pos (by omega)]
    simp only [Option.some.injEq]
    omega

theorem isUnreservedByte_ranges {b : Nat} (h : isUnreservedByte b = true) :
    (65 ≤ b ∧ b ≤ 90) ∨ (97 ≤ b ∧ b ≤ 122) ∨ (48 ≤ b ∧ b ≤ 57) ∨
      b = 45 ∨ b = 46 ∨ b = 95 ∨ b = 126 := by
  simp only [isUnreservedByte, Bool.or_eq_true, Bool.and_eq_true,
    decide_eq_true_eq, beq_iff_eq] at h
  tauto

theorem hexDigitByte_ne_seps (x : Nat) :
    hexDigitByte x ≠ 37 ∧ hexDigitByte x ≠ 38 ∧ hexDigitByte x ≠ 61 := by
  unfold hexDigitByte
  split <;> omega

theorem mem_pctEncodeByte_ne_seps {c b : Nat} (hc : c ∈ pctEncodeByte b) :
    c ≠ 38 ∧ c ≠ 61 := by
  unfold pctEncodeByte at hc
  split at hc
  · rename_i hu
    rcases List.mem_singleton.mp hc with rfl
    have := isUnreservedByte_ranges hu
    omega
  · simp only [List.mem_cons, List.not_mem_nil, or_false] at hc
    rcases hc with rfl | rfl | rfl
    · omega
    · exact ⟨(hexDigitByte_ne_seps _).2.1, (hexDigitByte_ne_seps _).2.2⟩
    · exact ⟨(hexDigitByte_ne_seps _).2.1, (hexDigitByte_ne_seps _).2.2⟩

theorem sep_not_mem_pctEncode (bs : Bytes) :
    38 ∉ pctEncode bs ∧ 61 ∉ pctEncode bs := by
  induction bs with
  | nil => simp [pctEncode]
  | cons b bs ih =>
    rw [pctEncode_cons]
    simp only [List.mem_append, not_or]
    exact ⟨⟨fun h => (mem_pctEncodeByte_ne_seps h).1 rfl, ih.1⟩,
      ⟨fun h => (mem_pctEncodeByte_ne_seps h).2 rfl, ih.2⟩⟩

theorem pctDecode_cons_ne (b : Nat) (l : Bytes) (hb : b ≠ 37) :
    pctDecode (b :: l) = (pctDecode l).map (fun ds => b :: ds) := by
  conv_lhs => unfold pctDecode
  rw [if_neg hb]

theorem pctDecode_cons_escape (d1 d2 : Nat) (l : Bytes) :
    pctDecode (37 :: d1 :: d2 :: l) =
      match hexValByte d1, hexValByte d2 with
      | some x, some y => (pctDecode l).map (fun ds => (16 * x + y) :: ds)
      | _, _ => none := by
  conv_lhs => unfold pctDecode
  rw [if_pos rfl]

theorem pctDecode_pctEncode (bs : Bytes) (h : ∀ b ∈ bs, b < 256) :
    pctDecode (pctEncode bs) = some bs := by
  induction bs with
  | nil => rfl
  | cons b bs ih =>
    have hb : b < 256 := h b (List.mem_cons_self b bs)
    have ih' : pctDecode (pctEncode bs) = some bs :=
      ih (fun x hx => h x (List.mem_cons_of_mem b hx))
    rw [pctEncode_cons]
    unfold pctEncodeByte
    by_cases hu : isUnreservedByte b
    · rw [if_pos hu]
      have hb37 : b ≠ 37 := by
        have := isUnreservedByte_ranges hu
        omega
      rw [List.singleton_append, pctDecode_cons_ne b _ hb37, ih']
      rfl
    · rw [if_neg hu]
      have h1 := hexValByte_hexDigitByte (b / 16) (by omega)
      have h2 := hexValByte_hexDigitByte (b % 16) (by omega)
      show pctDecode (37 :: hexDigitByte (b / 16) :: hexDigitByte (b % 16) :: pctEncode bs) = _
      rw [pctDecode_cons_escape, h1, h2]
      show (pctDecode (pctEncode bs)).map (fun ds => (16 * (b / 16) + b % 16) :: ds) = _
      rw [ih']
      show some ((16 * (b / 16) + b % 16) :: bs) = some (b :: bs)
      have hdm : 16 * (b / 16) + b % 16 = b := by omega
      rw [hdm]

theorem takeWhile_append_all {α : Type} (p : α → Bool) (l₁ l₂ : List α)
    (h : ∀ a ∈ l₁, p a = true) :
    (l₁ ++ l₂).takeWhile p = l₁ ++ l₂.takeWhile p := by
  induction l₁ with
  | nil => simp
  | cons a l ih =>
    rw [List.cons_append, List.takeWhile_cons, h a (List.mem_cons_self a l),
      List.cons_append]
    rw [ih (fun x hx => h x (List.mem_cons_of_mem a hx))]
    rfl

theorem dropWhile_append_all {α : Type} (p : α → Bool) (l₁ l₂ : List α)
    (h : ∀ a ∈ l₁, p a = true) :
    (l₁ ++ l₂).dropWhile p = l₂.dropWhile p := by
  induction l₁ with
  | nil => simp
  | cons a l ih =>
    rw [List.cons_append, List.dropWhile_cons, h a (List.mem_cons_self a l)]
    exact ih (fun x hx => h x (List.mem_cons_of_mem a hx))

theorem pctEncode_all_ne_61 (bs : Bytes) :
    ∀ a ∈ pctEncode bs, (a != 61) = true := by
  intro a ha
  simp only [bne_iff_ne, ne_eq]
  rintro rfl
  exact (sep_not_mem_pctEncode bs).2 ha

theorem parseQueryPair_encodePair (k v : Bytes)
    (hk : ∀ b ∈ k, b < 256) (hv : ∀ b ∈ v, b < 256) :
    parseQueryPair (encodePair (k, v)) = some (k, v) := by
  have hdrop : (encodePair (k, v)).dropWhile (fun b => b != 61) = 61 :: pctEncode v := by
    unfold encodePair
    rw [dropWhile_append_all _ _ _ (pctEncode_all_ne_61 k), List.dropWhile_cons]
    simp
  have htake : (encodePair (k, v)).takeWhile (fun b => b != 61) = pctEncode k := by
    unfold encodePair
    rw [takeWhile_append_all _ _ _ (pctEncode_all_ne_61 k), List.takeWhile_cons]
    simp
  unfold parseQueryPair
  rw [hdrop, htake]
  simp [pctDecode_pctEncode k hk, pctDecode_pctEncode v hv]

theorem parsePieces_map_encodePair (pairs : List (Bytes × Bytes))
    (h : ∀ kv ∈ pairs, (∀ b ∈ kv.1, b < 256) ∧ ∀ b ∈ kv.2, b < 256) :
    parsePieces (pairs.map encodePair) = some pairs := by
  induction pairs with
  | nil => rfl
  | cons kv ps ih =>
    have hkv := h kv (List.mem_cons_self kv ps)
    have ih' := ih (fun x hx => h x (List.mem_cons_of_mem kv hx))
    simp [parsePieces, parseQueryPair_encodePair kv.1 kv.2 hkv.1 hkv.2, ih']

theorem splitOn_encodeQuery (pairs : List (Bytes × Bytes)) (hne : pairs ≠ []) :
    (encodeQuery pairs).splitOn 38 = pairs.map encodePair := by
  apply List.splitOn_intercalate
  · intro l hl
    rcases List.mem_map.mp hl with ⟨kv, _, rfl⟩
    intro hmem
    unfold encodePair at hmem
    rcases List.mem_append.mp hmem with h | h
    · exact (sep_not_mem_pctEncode kv.1).1 h
    · rcases List.mem_cons.mp h with h38 | h
      · exact absurd h38 (by decide)
      · exact (sep_not_mem_pctEncode kv.2).1 h
  · simpa using hne

theorem decodeQuery_encodeQuery (pairs : List (Bytes × Bytes)) (h : ValidPairs pairs) :
    decodeQuery (encodeQuery pairs) = some pairs := by
  cases pairs with
  | nil => rfl
  | cons q qs =>
    have hne : encodeQuery (q :: qs) ≠ [] := by
      intro h0
      have hs := splitOn_encodeQuery (q :: qs) (by simp)
      rw [h0, List.splitOn_nil] at hs
      injection hs with h1 h2
      simp [encodePair] at h1
    unfold decodeQuery
    rw [if_neg hne, splitOn_encodeQuery (q :: qs) (by simp)]
    exact parsePieces_map_encodePair _ h

/-! ## Theorems: status flag, session lifecycle, transport -/

/-- C1: for every Response, the derived boolean `ok` is true iff the
integer status code lies in [200,400); outside that range, including
codes below 200, `ok` is false. -/
theorem ok_iff_status_in_range (r : Response) :
    r.ok = true ↔ 200 ≤ r.status ∧ r.status < 400 := by
  simp [Response.ok]

theorem ok_iff_status_in_range_witness :
    (Response.mk 250 [] []).ok = true ∧ (Response.mk 150 [] []).ok = false :=
  ⟨(ok_iff_status_in_range (Response.mk 250 [] [])).mpr (by decide), by decide⟩

/-- C2: closing an already-closed Session is a no-op (close is
idempotent), and every send issued through a closed Session fails with
`SessionClosedError`. -/
theorem close_idempotent_send_after_close_fails (s : Session) :
    Session.close (Session.close s) = Session.close s ∧
      ∀ (req : Request) (w : Wire),
        (Session.close s).send req w = .error .sessionClosed := by
  refine ⟨rfl, ?_⟩
  intro req w
  simp [Session.send, Session.close]

theorem close_idempotent_send_after_close_fails_witness :
    (Session.close Session.openSession).send simpleGetRequest Wire.timedOut =
      .error .sessionClosed :=
  (close_idempotent_send_after_close_fails Session.openSession).2 simpleGetRequest Wire.timedOut

/-- C5: for every body of a scoped session usage — whether it finishes
normally or lets a failure propagate — `close()` is invoked exactly once
on the opened session by the time the scope is exited. -/
theorem scoped_session_closes_exactly_once {ε α : Type}
    (body : Session → Except ε α × Session × List SessionOp)
    (hbody : ∀ s, closeCount (body s).2.2 = 0) :
    closeCount (withOpenSession body).2.2 = 1 := by
  have h := hbody Session.openSession
  show closeCount ((body Session.openSession).2.2 ++ [SessionOp.close]) = 1
  unfold closeCount at h ⊢
  rw [List.countP_append, h]
  rfl

theorem scoped_session_closes_exactly_once_witness :
    closeCount (withOpenSession
      (fun s => ((Except.error 0 : Except Nat Nat), s, ([] : List SessionOp)))).2.2 = 1 :=
  scoped_session_closes_exactly_once _ (fun _ => rfl)

/-- C7: a Response is only ever built from a complete wire exchange — it
then carries that exchange's status code, headers and body — and every
transport outcome that is not a complete response surfaces as an error,
never as a degenerate Response. -/
theorem response_only_from_complete_exchange (req : Request) (w : Wire) :
    (∀ r : Response, rawSend req w = .ok r →
        w = .complete r.status r.headers r.body) ∧
      ((∀ st hs b, w ≠ .complete st hs b) → ∃ e, rawSend req w = .error e) := by
  cases w <;> simp [rawSend]

theorem response_only_from_complete_exchange_witness :
    ∃ e, rawSend simpleGetRequest Wire.droppedBeforeStatus = .error e :=
  (response_only_from_complete_exchange simpleGetRequest Wire.droppedBeforeStatus).2
    (fun _ _ _ h => Wire.noConfusion h)

/-- C8: one send call consumes exactly one attempt from the transport:
the remaining attempts are returned untouched, and a failing first
attempt is surfaced as that failure with no further attempt consumed. -/
theorem send_exactly_one_attempt (req : Request) (w : Wire) (ws : List Wire) :
    sendOnce req (w :: ws) = (rawSend req w, ws) ∧
      ∀ e, rawSend req w = .error e → sendOnce req (w :: ws) = (.error e, ws) := by
  refine ⟨rfl, ?_⟩
  intro e he
  simp [sendOnce, he]

theorem send_exactly_one_attempt_witness :
    sendOnce simpleGetRequest [Wire.noConnection, Wire.complete 200 [] []] =
      (.error .connectionFailed, [Wire.complete 200 [] []]) :=
  (send_exactly_one_attempt simpleGetRequest Wire.noConnection
    [Wire.complete 200 [] []]).2 HttpError.connectionFailed rfl

/-- C9: the script's POST branch prints exactly one result line,
"Submitted!" with the body text when `ok` is true, and "Error:" with the
status code when `ok` is false — never both and never neither. -/
theorem post_branch_prints_one_line (r : Response) :
    (postReport r).length = 1 ∧
      (r.ok = true → postReport r = [.submitted r.body]) ∧
      (r.ok = false → postReport r = [.errorLine r.status]) := by
  by_cases h : r.ok <;> simp [postReport, h]

theorem post_branch_prints_one_line_witness :
    postReport (Response.mk 201 [] (strBytes "done")) =
      [ScriptLine.submitted (strBytes "done")] :=
  (post_branch_prints_one_line (Response.mk 201 [] (strBytes "done"))).2.1 (by decide)

/-! ## Decimal digit lemmas -/

theorem natDigitsAux_digits (fuel : Nat) :
    ∀ n, ∀ d ∈ natDigitsAux fuel n, 48 ≤ d ∧ d ≤ 57 := by
  induction fuel with
  | zero => intro n d hd; cases hd
  | succ fuel ih =>
    intro n d hd
    unfold natDigitsAux at hd
    by_cases h10 : n < 10
    · rw [if_pos h10] at hd
      rcases List.mem_singleton.mp hd with rfl
      omega
    · rw [if_neg h10] at hd
      rcases List.mem_append.mp hd with h | h
      · exact ih _ d h
      · rcases List.mem_singleton.mp h with rfl
        have := Nat.mod_lt n (show 0 < 10 by omega)
        omega

theorem natDigits_digits (n : Nat) : ∀ d ∈ natDigits n, 48 ≤ d ∧ d ≤ 57 :=
  natDigitsAux_digits (n + 1) n

theorem natDigitsAux_ne_nil (fuel n : Nat) : natDigitsAux (fuel + 1) n ≠ [] := by
  unfold natDigitsAux
  by_cases h10 : n < 10
  · rw [if_pos h10]; simp
  · rw [if_neg h10]; simp

theorem natDigits_head (n : Nat) :
    ∃ d ds, natDigits n = d :: ds ∧ 48 ≤ d ∧ d ≤ 57 := by
  cases hnd : natDigits n with
  | nil => exact absurd hnd (natDigitsAux_ne_nil n n)
  | cons d ds =>
    refine ⟨d, ds, rfl, ?_⟩
    have := natDigits_digits n d
    rw [hnd] at this
    exact this (List.mem_cons_self d ds)

theorem foldl_natDigitsAux (fuel : Nat) :
    ∀ n acc, n < 10 ^ fuel →
      List.foldl (fun a d => a * 10 + (d - 48)) acc (natDigitsAux fuel n) =
        acc * 10 ^ (natDigitsAux fuel n).length + n := by
  induction fuel with
  | zero =>
    intro n acc h
    simp only [pow_zero] at h
    interval_cases n
    simp [natDigitsAux]
  | succ fuel ih =>
    intro n acc h
    unfold natDigitsAux
    by_cases h10 : n < 10
    · rw [if_pos h10]
      simp only [List.foldl_cons, List.foldl_nil, List.length_singleton, pow_one]
      omega
    · rw [if_neg h10]
      have hdiv : n / 10 < 10 ^ fuel := by
        rw [Nat.div_lt_iff_lt_mul (by omega : 0 < 10)]
        calc n < 10 ^ (fuel + 1) := h
          _ = 10 ^ fuel * 10 := by rw [pow_succ]
      rw [List.foldl_append, ih (n / 10) acc hdiv]
      simp only [List.foldl_cons, List.foldl_nil, List.length_append,
        List.length_singleton]
      have hmod : 48 + n % 10 - 48 = n % 10 := by omega
      rw [hmod, pow_succ]
      have hdm : 10 * (n / 10) + n % 10 = n := Nat.div_add_mod n 10
      calc (acc * 10 ^ (natDigitsAux fuel (n / 10)).length + n / 10) * 10 + n % 10
          = acc * (10 ^ (natDigitsAux fuel (n / 10)).length * 10) +
              (10 * (n / 10) + n % 10) := by ring
        _ = acc * (10 ^ (natDigitsAux fuel (n / 10)).length * 10) + n := by rw [hdm]

theorem foldl_natDigits (n : Nat) :
    List.foldl (fun a d => a * 10 + (d - 48)) 0 (natDigits n) = n := by
  have hlt : n < 10 ^ (n + 1) := by
    have := Nat.lt_pow_self (show 1 < 10 by omega) (n + 1)
    omega
  have := foldl_natDigitsAux (n + 1) n 0 hlt
  simpa using this

theorem parseDigitsAux_nonDigit (acc : Nat) (rest : Bytes) (h : nonDigitHead rest) :
    parseDigitsAux acc rest = (acc, rest) := by
  cases rest with
  | nil => rfl
  | cons c cs =>
    unfold parseDigitsAux
    rw [if_neg]
    unfold nonDigitHead at h
    omega

theorem parseDigitsAux_digits_append (ds : Bytes) :
    ∀ acc (rest : Bytes), (∀ d ∈ ds, 48 ≤ d ∧ d ≤ 57) → nonDigitHead rest →
      parseDigitsAux acc (ds ++ rest) =
        (List.foldl (fun a d => a * 10 + (d - 48)) acc ds, rest) := by
  induction ds with
  | nil =>
    intro acc rest _ hrest
    exact parseDigitsAux_nonDigit acc rest hrest
  | cons d ds ih =>
    intro acc rest hds hrest
    have hd := hds d (List.mem_cons_self d ds)
    rw [List.cons_append]
    unfold parseDigitsAux
    rw [if_pos hd]
    rw [ih _ rest (fun x hx => hds x (List.mem_cons_of_mem d hx)) hrest]
    simp

theorem parseNatNum_natDigits (n : Nat) (rest : Bytes) (hrest : nonDigitHead rest) :
    parseNatNum (natDigits n ++ rest) = some (n, rest) := by
  obtain ⟨d, ds, hnd, hd⟩ := natDigits_head n
  rw [hnd, List.cons_append]
  simp only [parseNatNum]
  rw [if_pos hd, ← List.cons_append, ← hnd]
  rw [parseDigitsAux_digits_append (natDigits n) 0 rest (natDigits_digits n) hrest]
  rw [foldl_natDigits n]

/-! ## JSON string escaping round-trip -/

theorem parseStrAux_cons (b : Nat) (rest : Bytes) :
    parseStrAux (b :: rest) =
      if b = 34 then some ([], rest)
      else if b = 92 then
        match rest with
        | 34 :: rest' => (parseStrAux rest').map (fun p => (34 :: p.1, p.2))
        | 92 :: rest' => (parseStrAux rest').map (fun p => (92 :: p.1, p.2))
        | 117 :: a :: b2 :: c :: d :: rest' =>
          match hexValByte a, hexValByte b2, hexValByte c, hexValByte d with
          | some ha, some hb, some hc, some hd =>
            (parseStrAux rest').map
              (fun p => ((((ha * 16 + hb) * 16 + hc) * 16 + hd) :: p.1, p.2))
          | _, _, _, _ => none
        | _ => none
      else (parseStrAux rest).map (fun p => (b :: p.1, p.2)) := by
  rw [parseStrAux.eq_def]
  rfl

theorem parseStrAux_escStr (s : Bytes) (rest : Bytes) :
    parseStrAux (escStr s ++ 34 :: rest) = some (s, rest) := by
  induction s with
  | nil =>
    show parseStrAux (34 :: rest) = some ([], rest)
    rw [parseStrAux_cons, if_pos rfl]
  | cons b s ih =>
    have hesc : escStr (b :: s) = escByte b ++ escStr s := by simp [escStr]
    rw [hesc, List.append_assoc]
    unfold escByte
    by_cases h34 : b = 34
    · subst h34
      rw [if_pos rfl]
      show parseStrAux (92 :: 34 :: (escStr s ++ 34 :: rest)) = _
      rw [parseStrAux_cons, if_neg (by omega), if_pos rfl]
      show (parseStrAux (escStr s ++ 34 :: rest)).map (fun p => (34 :: p.1, p.2)) = _
      rw [ih]
      rfl
    · rw [if_neg h34]
      by_cases h92 : b = 92
      · subst h92
        rw [if_pos rfl]
        show parseStrAux (92 :: 92 :: (escStr s ++ 34 :: rest)) = _
        rw [parseStrAux_cons, if_neg (by omega), if_pos rfl]
        show (parseStrAux (escStr s ++ 34 :: rest)).map (fun p => (92 :: p.1, p.2)) = _
        rw [ih]
        rfl
      · rw [if_neg h92]
        by_cases h32 : b < 32
        · rw [if_pos h32]
          show parseStrAux (92 :: 117 :: 48 :: 48 :: hexDigitByte (b / 16) ::
            hexDigitByte (b % 16) :: (escStr s ++ 34 :: rest)) = _
          have hh1 : hexValByte (hexDigitByte (b / 16)) = some (b / 16) :=
            hexValByte_hexDigitByte _ (by omega)
          have hh2 : hexValByte (hexDigitByte (b % 16)) = some (b % 16) :=
            hexValByte_hexDigitByte _ (by omega)
          have h48 : hexValByte 48 = some 0 := rfl
          rw [parseStrAux_cons, if_neg (by omega), if_pos rfl]
          show (match hexValByte 48, hexValByte 48, hexValByte (hexDigitByte (b / 16)),
              hexValByte (hexDigitByte (b % 16)) with
            | some ha, some hb, some hc, some hd =>
              (parseStrAux (escStr s ++ 34 :: rest)).map
                (fun (p : Bytes × Bytes) => ((((ha * 16 + hb) * 16 + hc) * 16 + hd) :: p.1, p.2))
            | _, _, _, _ => none) = _
          rw [h48, hh1, hh2]
          show (parseStrAux (escStr s ++ 34 :: rest)).map
            (fun (p : Bytes × Bytes) => ((((0 * 16 + 0) * 16 + b / 16) * 16 + b % 16) :: p.1, p.2)) = _
          rw [ih]
          show some ((((0 * 16 + 0) * 16 + b / 16) * 16 + b % 16) :: s, rest) = _
          have hb : ((0 * 16 + 0) * 16 + b / 16) * 16 + b % 16 = b := by omega
          rw [hb]
        · rw [if_neg h32]
          show parseStrAux (b :: (escStr s ++ 34 :: rest)) = _
          rw [parseStrAux_cons, if_neg h34, if_neg h92, ih]
          rfl

/-! ## Unfolding equations for the serializer, parser and fuel measures -/

theorem serJVal_null : serJVal .null = [110, 117, 108, 108] := by
  rw [serJVal.eq_def]

theorem serJVal_true : serJVal (.bool true) = [116, 114, 117, 101] := by
  rw [serJVal.eq_def]

theorem serJVal_false : serJVal (.bool false) = [102, 97, 108, 115, 101] := by
  rw [serJVal.eq_def]

theorem serJVal_num (n : Int) : serJVal (.num n) = intBytes n := by
  rw [serJVal.eq_def]

theorem serJVal_str (s : Bytes) : serJVal (.str s) = serStr s := by
  rw [serJVal.eq_def]

theorem serJVal_arr (xs : JArr) : serJVal (.arr xs) = 91 :: serElemsAll xs ++ [93] := by
  rw [serJVal.eq_def]

theorem serJVal_obj (fs : JObj) : serJVal (.obj fs) = 123 :: serFieldsAll fs ++ [125] := by
  rw [serJVal.eq_def]

theorem serElemsAll_nil : serElemsAll .nil = [] := by
  rw [serElemsAll.eq_def]

theorem serElemsAll_cons (x : JVal) (xs : JArr) :
    serElemsAll (.cons x xs) = serJVal x ++ serElemsRest xs := by
  rw [serElemsAll.eq_def]

theorem serElemsRest_nil : serElemsRest .nil = [] := by
  rw [serElemsRest.eq_def]

theorem serElemsRest_cons (x : JVal) (xs : JArr) :
    serElemsRest (.cons x xs) = 44 :: (serJVal x ++ serElemsRest xs) := by
  rw [serElemsRest.eq_def]

theorem serFieldsAll_nil : serFieldsAll .nil = [] := by
  rw [serFieldsAll.eq_def]

theorem serFieldsAll_cons (k : Bytes) (v : JVal) (fs : JObj) :
    serFieldsAll (.cons k v fs) = serStr k ++ 58 :: serJVal v ++ serFieldsRest fs := by
  rw [serFieldsAll.eq_def]

theorem serFieldsRest_nil : serFieldsRest .nil = [] := by
  rw [serFieldsRest.eq_def]

theorem serFieldsRest_cons (k : Bytes) (v : JVal) (fs : JObj) :
    serFieldsRest (.cons k v fs) =
      44 :: (serStr k ++ 58 :: serJVal v ++ serFieldsRest fs) := by
  rw [serFieldsRest.eq_def]

theorem jfuel_arr (xs : JArr) : jfuel (.arr xs) = 1 + gfuel xs := by
  rw [jfuel.eq_def]

theorem jfuel_obj (fs : JObj) : jfuel (.obj fs) = 1 + hfuel fs := by
  rw [jfuel.eq_def]

theorem gfuel_cons (x : JVal) (xs : JArr) :
    gfuel (.cons x xs) = 1 + max (jfuel x) (gfuel xs) := by
  rw [gfuel.eq_def]

theorem hfuel_cons (k : Bytes) (v : JVal) (fs : JObj) :
    hfuel (.cons k v fs) = 1 + max (jfuel v) (hfuel fs) := by
  rw [hfuel.eq_def]

theorem parseJVal_succ_cons (fuel : Nat) (c : Nat) (input : Bytes) :
    parseJVal (fuel + 1) (c :: input) =
      if c = 110 then
        match input with
        | 117 :: 108 :: 108 :: rest => some (.null, rest)
        | _ => none
      else if c = 116 then
        match input with
        | 114 :: 117 :: 101 :: rest => some (.bool true, rest)
        | _ => none
      else if c = 102 then
        match input with
        | 97 :: 108 :: 115 :: 101 :: rest => some (.bool false, rest)
        | _ => none
      else if c = 34 then
        match parseStrAux input with
        | some (s, rest) => some (.str s, rest)
        | none => none
      else if c = 91 then
        match parseElems fuel input with
        | some (xs, 93 :: rest) => some (.arr xs, rest)
        | _ => none
      else if c = 123 then
        match parseFields fuel input with
        | some (fs, 125 :: rest) => some (.obj fs, rest)
        | _ => none
      else if c = 45 then
        match parseNatNum input with
        | some (n, rest) => some (.num (-(n : Int)), rest)
        | none => none
      else if 48 ≤ c ∧ c ≤ 57 then
        match parseNatNum (c :: input) with
        | some (n, rest) => some (.num (n : Int), rest)
        | none => none
      else none := by
  rw [parseJVal.eq_def]
  rfl

theorem parseElems_succ_cons (fuel : Nat) (c : Nat) (input : Bytes) :
    parseElems (fuel + 1) (c :: input) =
      if c = 93 then some (.nil, c :: input)
      else
        match parseJVal fuel (c :: input) with
        | some (v, 44 :: rest) =>
          match parseElems fuel rest with
          | some (vs, rest') => some (.cons v vs, rest')
          | none => none
        | some (v, rest) => some (.cons v .nil, rest)
        | none => none := by
  rw [parseElems.eq_def]

theorem parseFields_succ_cons (fuel : Nat) (c : Nat) (input : Bytes) :
    parseFields (fuel + 1) (c :: input) =
      if c = 125 then some (.nil, c :: input)
      else if c = 34 then
        match parseStrAux input with
        | some (k, 58 :: vrest) =>
          match parseJVal fuel vrest with
          | some (v, 44 :: rest) =>
            match parseFields fuel rest with
            | some (fs, rest') => some (.cons k v fs, rest')
            | none => none
          | some (v, rest) => some (.cons k v .nil, rest)
          | none => none
        | _ => none
      else none := by
  rw [parseFields.eq_def]

/-! ## Serialization head shapes and fuel bounds -/

theorem serJVal_head (v : JVal) :
    ∃ c cs, serJVal v = c :: cs ∧
      (c = 110 ∨ c = 116 ∨ c = 102 ∨ c = 34 ∨ c = 91 ∨ c = 123 ∨ c = 45 ∨
        (48 ≤ c ∧ c ≤ 57)) := by
  cases v with
  | null => exact ⟨110, _, rfl, by omega⟩
  | bool b =>
    cases b with
    | false => exact ⟨102, _, rfl, by omega⟩
    | true => exact ⟨116, _, rfl, by omega⟩
  | num n =>
    by_cases hn : n < 0
    · refine ⟨45, natDigits n.natAbs, ?_, by omega⟩
      show intBytes n = _
      unfold intBytes
      rw [if_pos hn]
    · obtain ⟨d, ds, hnd, hd⟩ := natDigits_head n.natAbs
      refine ⟨d, ds, ?_, by omega⟩
      show intBytes n = _
      unfold intBytes
      rw [if_neg hn, hnd]
  | str s => exact ⟨34, _, rfl, by omega⟩
  | arr xs => exact ⟨91, _, rfl, by omega⟩
  | obj fs => exact ⟨123, _, rfl, by omega⟩

theorem serJVal_ne_nil (v : JVal) : 1 ≤ (serJVal v).length := by
  obtain ⟨c, cs, h, _⟩ := serJVal_head v
  rw [h]
  simp

theorem nonDigitHead_serElemsRest (xs : JArr) (c : Nat) (rest : Bytes)
    (hc : c < 48 ∨ 57 < c) :
    nonDigitHead (serElemsRest xs ++ c :: rest) := by
  cases xs with
  | nil => exact hc
  | cons y ys => exact Or.inl (by omega)

theorem nonDigitHead_serFieldsRest (fs : JObj) (c : Nat) (rest : Bytes)
    (hc : c < 48 ∨ 57 < c) :
    nonDigitHead (serFieldsRest fs ++ c :: rest) := by
  cases fs with
  | nil => exact hc
  | cons k v gs => exact Or.inl (by omega)

theorem jfuel_pos (v : JVal) : 1 ≤ jfuel v := by
  cases v <;> simp [jfuel]

theorem gfuel_pos (xs : JArr) : 1 ≤ gfuel xs := by
  cases xs <;> simp [gfuel]

theorem hfuel_pos (fs : JObj) : 1 ≤ hfuel fs := by
  cases fs <;> simp [hfuel]

/-! ## JSON round-trip -/

mutual

theorem parseJVal_ser (fuel : Nat) (v : JVal) (rest : Bytes)
    (hf : jfuel v ≤ fuel) (hrest : nonDigitHead rest) :
    parseJVal fuel (serJVal v ++ rest) = some (v, rest) := by
  have hpos : 1 ≤ jfuel v := jfuel_pos v
  cases fuel with
  | zero => omega
  | succ f =>
    cases v with
    | null =>
      rw [serJVal_null]
      show parseJVal (f + 1) (110 :: (117 :: 108 :: 108 :: rest)) = _
      rw [parseJVal_succ_cons, if_pos rfl]
    | bool b =>
      cases b with
      | true =>
        rw [serJVal_true]
        show parseJVal (f + 1) (116 :: (114 :: 117 :: 101 :: rest)) = _
        rw [parseJVal_succ_cons, if_neg (by omega), if_pos rfl]
      | false =>
        rw [serJVal_false]
        show parseJVal (f + 1) (102 :: (97 :: 108 :: 115 :: 101 :: rest)) = _
        rw [parseJVal_succ_cons, if_neg (by omega), if_neg (by omega), if_pos rfl]
    | num n =>
      rw [serJVal_num]
      by_cases hn : n < 0
      · have hser : intBytes n = 45 :: natDigits n.natAbs := by
          unfold intBytes
          rw [if_pos hn]
        rw [hser, List.cons_append, parseJVal_succ_cons,
          if_neg (by omega), if_neg (by omega), if_neg (by omega), if_neg (by omega),
          if_neg (by omega), if_neg (by omega), if_pos rfl,
          parseNatNum_natDigits n.natAbs rest hrest]
        show some (JVal.num (-(n.natAbs : Int)), rest) = some (JVal.num n, rest)
        have habs : -((n.natAbs : Int)) = n := by omega
        rw [habs]
      · have hser : intBytes n = natDigits n.natAbs := by
          unfold intBytes
          rw [if_neg hn]
        obtain ⟨d, ds, hnd, hd⟩ := natDigits_head n.natAbs
        rw [hser, hnd, List.cons_append, parseJVal_succ_cons,
          if_neg (by omega), if_neg (by omega), if_neg (by omega), if_neg (by omega),
          if_neg (by omega), if_neg (by omega), if_neg (by omega), if_pos hd,
          ← List.cons_append, ← hnd,
          parseNatNum_natDigits n.natAbs rest hrest]
        show some (JVal.num ((n.natAbs : Int)), rest) = some (JVal.num n, rest)
        have habs : ((n.natAbs : Int)) = n := by omega
        rw [habs]
    | str s =>
      rw [serJVal_str]
      have hshape : serStr s ++ rest = 34 :: (escStr s ++ 34 :: rest) := by
        simp [serStr]
      rw [hshape, parseJVal_succ_cons, if_neg (by omega), if_neg (by omega),
        if_neg (by omega), if_pos rfl, parseStrAux_escStr]
    | arr xs =>
      rw [serJVal_arr]
      have hshape : (91 :: serElemsAll xs ++ [93]) ++ rest =
          91 :: (serElemsAll xs ++ 93 :: rest) := by
        simp
      rw [hshape, parseJVal_succ_cons, if_neg (by omega), if_neg (by omega),
        if_neg (by omega), if_neg (by omega), if_pos rfl]
      have hxs : gfuel xs ≤ f := by
        rw [jfuel_arr] at hf
        omega
      rw [parseElems_ser f xs rest hxs]
    | obj fs =>
      rw [serJVal_obj]
      have hshape : (123 :: serFieldsAll fs ++ [125]) ++ rest =
          123 :: (serFieldsAll fs ++ 125 :: rest) := by
        simp
      rw [hshape, parseJVal_succ_cons, if_neg (by omega), if_neg (by omega),
        if_neg (by omega), if_neg (by omega), if_neg (by omega), if_pos rfl]
      have hfs : hfuel fs ≤ f := by
        rw [jfuel_obj] at hf
        omega
      rw [parseFields_ser f fs rest hfs]

theorem parseElems_ser (fuel : Nat) (xs : JArr) (rest : Bytes)
    (hf : gfuel xs ≤ fuel) :
    parseElems fuel (serElemsAll xs ++ 93 :: rest) = some (xs, 93 :: rest) := by
  have hpos : 1 ≤ gfuel xs := gfuel_pos xs
  cases fuel with
  | zero => omega
  | succ f =>
    cases xs with
    | nil =>
      rw [serElemsAll_nil]
      show parseElems (f + 1) (93 :: rest) = _
      rw [parseElems_succ_cons, if_pos rfl]
    | cons x xs =>
      obtain ⟨c, cs, hser, hc⟩ := serJVal_head x
      have hx : jfuel x ≤ f := by
        rw [gfuel_cons] at hf
        omega
      have hshape : serElemsAll (.cons x xs) ++ 93 :: rest =
          c :: (cs ++ (serElemsRest xs ++ 93 :: rest)) := by
        rw [serElemsAll_cons, hser]
        simp [List.append_assoc]
      rw [hshape, parseElems_succ_cons, if_neg (by omega)]
      rw [show c :: (cs ++ (serElemsRest xs ++ 93 :: rest)) =
        serJVal x ++ (serElemsRest xs ++ 93 :: rest) from by rw [hser]; rfl]
      rw [parseJVal_ser f x (serElemsRest xs ++ 93 :: rest) hx
        (nonDigitHead_serElemsRest xs 93 rest (by omega))]
      cases xs with
      | nil =>
        rw [serElemsRest_nil, List.nil_append]
      | cons y ys =>
        rw [serElemsRest_cons, List.cons_append]
        have hys : gfuel (JArr.cons y ys) ≤ f := by
          rw [gfuel_cons] at hf
          omega
        have hrec := parseElems_ser f (JArr.cons y ys) rest hys
        rw [serElemsAll_cons] at hrec
        show (match parseElems f ((serJVal y ++ serElemsRest ys) ++ 93 :: rest) with
          | some (vs, rest') => some (JArr.cons x vs, rest')
          | none => none) = some (JArr.cons x (JArr.cons y ys), 93 :: rest)
        rw [hrec]

theorem parseFields_ser (fuel : Nat) (fs : JObj) (rest : Bytes)
    (hf : hfuel fs ≤ fuel) :
    parseFields fuel (serFieldsAll fs ++ 125 :: rest) = some (fs, 125 :: rest) := by
  have hpos : 1 ≤ hfuel fs := hfuel_pos fs
  cases fuel with
  | zero => omega
  | succ f =>
    cases fs with
    | nil =>
      rw [serFieldsAll_nil]
      show parseFields (f + 1) (125 :: rest) = _
      rw [parseFields_succ_cons, if_pos rfl]
    | cons k v fs =>
      have hv : jfuel v ≤ f := by
        rw [hfuel_cons] at hf
        omega
      have hshape : serFieldsAll (.cons k v fs) ++ 125 :: rest =
          34 :: (escStr k ++ 34 :: (58 :: (serJVal v ++ (serFieldsRest fs ++ 125 :: rest)))) := by
        rw [serFieldsAll_cons]
        show (serStr k ++ 58 :: serJVal v ++ serFieldsRest fs) ++ 125 :: rest = _
        simp [serStr, List.append_assoc]
      rw [hshape, parseFields_succ_cons, if_neg (by omega), if_pos rfl,
        parseStrAux_escStr k (58 :: (serJVal v ++ (serFieldsRest fs ++ 125 :: rest)))]
      show (match parseJVal f (serJVal v ++ (serFieldsRest fs ++ 125 :: rest)) with
        | some (v', 44 :: rest2) =>
          match parseFields f rest2 with
          | some (fs', rest') => some (JObj.cons k v' fs', rest')
          | none => none
        | some (v', rest2) => some (JObj.cons k v' .nil, rest2)
        | none => none) = some (JObj.cons k v fs, 125 :: rest)
      rw [parseJVal_ser f v (serFieldsRest fs ++ 125 :: rest) hv
        (nonDigitHead_serFieldsRest fs 125 rest (by omega))]
      cases fs with
      | nil =>
        rw [serFieldsRest_nil, List.nil_append]
      | cons k2 v2 fs2 =>
        rw [serFieldsRest_cons, List.cons_append]
        have hfs2 : hfuel (JObj.cons k2 v2 fs2) ≤ f := by
          rw [hfuel_cons] at hf
          omega
        have hrec := parseFields_ser f (JObj.cons k2 v2 fs2) rest hfs2
        rw [serFieldsAll_cons] at hrec
        show (match parseFields f ((serStr k2 ++ 58 :: serJVal v2 ++ serFieldsRest fs2) ++
            125 :: rest) with
          | some (fs', rest') => some (JObj.cons k v fs', rest')
          | none => none) = some (JObj.cons k v (JObj.cons k2 v2 fs2), 125 :: rest)
        rw [hrec]

end

theorem jfuel_null : jfuel .null = 1 := by
  rw [jfuel.eq_def]

theorem jfuel_bool (b : Bool) : jfuel (.bool b) = 1 := by
  rw [jfuel.eq_def]

theorem jfuel_num (n : Int) : jfuel (.num n) = 1 := by
  rw [jfuel.eq_def]

theorem jfuel_str (s : Bytes) : jfuel (.str s) = 1 := by
  rw [jfuel.eq_def]

theorem gfuel_nil : gfuel .nil = 1 := by
  rw [gfuel.eq_def]

theorem hfuel_nil : hfuel .nil = 1 := by
  rw [hfuel.eq_def]

mutual

theorem jfuel_le_len (v : JVal) : jfuel v ≤ (serJVal v).length := by
  cases v with
  | null => rw [jfuel_null, serJVal_null]; simp
  | bool b =>
    cases b with
    | true => rw [jfuel_bool, serJVal_true]; simp
    | false => rw [jfuel_bool, serJVal_false]; simp
  | num n =>
    rw [jfuel_num, serJVal_num]
    exact serJVal_ne_nil (.num n)
  | str s =>
    rw [jfuel_str, serJVal_str]
    exact serJVal_ne_nil (.str s)
  | arr xs =>
    rw [jfuel_arr, serJVal_arr]
    have h := gfuel_le_len xs
    simp [List.length_append]
    omega
  | obj fs =>
    rw [jfuel_obj, serJVal_obj]
    have h := hfuel_le_len fs
    simp [List.length_append]
    omega

theorem gfuel_le_len (xs : JArr) : gfuel xs ≤ (serElemsAll xs).length + 1 := by
  cases xs with
  | nil => rw [gfuel_nil, serElemsAll_nil]; simp
  | cons x xs =>
    rw [gfuel_cons, serElemsAll_cons]
    have h1 := jfuel_le_len x
    have h2 := serJVal_ne_nil x
    cases xs with
    | nil =>
      rw [gfuel_nil, serElemsRest_nil]
      simp [List.length_append]
      omega
    | cons y ys =>
      rw [serElemsRest_cons]
      have h3 := gfuel_le_len (JArr.cons y ys)
      rw [serElemsAll_cons] at h3
      simp [List.length_append] at h3 ⊢
      omega

theorem hfuel_le_len (fs : JObj) : hfuel fs ≤ (serFieldsAll fs).length + 1 := by
  cases fs with
  | nil => rw [hfuel_nil, serFieldsAll_nil]; simp
  | cons k v fs =>
    rw [hfuel_cons, serFieldsAll_cons]
    have h1 := jfuel_le_len v
    have h2 := serJVal_ne_nil v
    cases fs with
    | nil =>
      rw [hfuel_nil, serFieldsRest_nil]
      simp [List.length_append]
      omega
    | cons k2 v2 fs2 =>
      rw [serFieldsRest_cons]
      have h3 := hfuel_le_len (JObj.cons k2 v2 fs2)
      rw [serFieldsAll_cons] at h3
      simp [List.length_append] at h3 ⊢
      omega

end

/-- The JSON round-trip: parsing a serialized value yields it back. -/
theorem parseJson_serJVal (v : JVal) : parseJson (serJVal v) = some v := by
  unfold parseJson
  have hfu : jfuel v ≤ (serJVal v).length + 1 := by
    have := jfuel_le_len v
    omega
  have h := parseJVal_ser ((serJVal v).length + 1) v [] hfu (by show True; exact trivial)
  rw [List.append_nil] at h
  rw [h]

/-! ## Theorems: query-string round-trip -/

/-- C3 counterexample: at the script's own mapping
`{"q": "test", "limit": 5}`, parsing the constructed query string does
not recover the original key/value pairs — the integer 5 comes back as
the string "5", not as the integer it was. -/
theorem query_roundtrip_exact_fails_script :
    ¬ queryRoundTripExact scriptGetParams := by decide

/-- C3 (amended): parsing the constructed query string recovers the
original key/value pairs with every value in its string rendering —
string values and list-of-string values exactly, repeated as multiple
`key=value` pairs in insertion order, and an integer value as its
decimal string. -/
theorem query_roundtrip_string_values (ps : List (Bytes × PVal))
    (h : ValidPairs (flattenParams ps)) :
    decodeQuery (encodeQuery (flattenParams ps)) = some (flattenParams ps) :=
  decodeQuery_encodeQuery (flattenParams ps) h

theorem query_roundtrip_string_values_witness :
    decodeQuery (encodeQuery (flattenParams scriptGetParams)) =
      some (flattenParams scriptGetParams) :=
  query_roundtrip_string_values scriptGetParams (by decide)

/-- C10: the interface accepts the integer parameter value 5 and encodes
it as its decimal string representation — the script's mapping yields
exactly the query string `q=test&limit=5` — and decoding that query
string yields the string "5" for "limit". -/
theorem int_param_encodes_as_decimal :
    encodeQuery (flattenParams scriptGetParams) = strBytes "q=test&limit=5" ∧
      decodeQuery (strBytes "q=test&limit=5") =
        some [(strBytes "q", strBytes "test"), (strBytes "limit", strBytes "5")] := by
  exact ⟨by decide, by decide⟩

/-! ## Theorems: JSON body round-trip and lazy decoding -/

/-- C4: for every request carrying a structured JSON body, the bytes
transmitted as the request body are the value's JSON serialization, and
decoding those bytes as JSON yields a value equal to the original
structured body (serialization round-trip); object key order is the
insertion order by construction of the serializer. -/
theorem json_body_roundtrip (req : Request) (j : JVal)
    (h : req.body = some (.json j)) :
    req.body.map transmittedBody = some (serJVal j) ∧
      parseJson (serJVal j) = some j := by
  rw [h]
  exact ⟨rfl, parseJson_serJVal j⟩

theorem json_body_roundtrip_witness :
    scriptPostRequest.body.map transmittedBody = some (serJVal scriptPostJson) ∧
      parseJson (serJVal scriptPostJson) = some scriptPostJson :=
  json_body_roundtrip scriptPostRequest scriptPostJson rfl

/-- C6: requesting the decoded JSON value of a Response fails with
ParseError exactly when the body bytes are not valid JSON — the error
comes back synchronously from the decoding call itself — and when the
body is valid JSON the decoded value is returned. -/
theorem jsonValue_parse_error_iff (r : Response) :
    (r.jsonValue = .error .parseFailed ↔ validJson r.body = false) ∧
      ∀ v, parseJson r.body = some v → r.jsonValue = .ok v := by
  cases hp : parseJson r.body with
  | none =>
    refine ⟨?_, ?_⟩
    · simp [Response.jsonValue, validJson, hp]
    · intro v hv
      cases hv
  | some v =>
    refine ⟨?_, ?_⟩
    · simp [Response.jsonValue, validJson, hp]
    · intro v' hv'
      cases hv'
      simp [Response.jsonValue, hp]

theorem jsonValue_parse_error_iff_witness :
    (Response.mk 200 [] [123]).jsonValue = .error .parseFailed :=
  (jsonValue_parse_error_iff (Response.mk 200 [] [123])).1.mpr (by decide)

end MigMate
